import Mathlib

/-!
Verification development for the `ets` rate-limiting core (odygrd/cs):
a fixed-capacity circular history buffer, a sliding-window admission gate
built on it, and a priority-aware throttling queue built on the gate.

Timestamps and durations (`std::chrono::steady_clock::time_point`,
`std::chrono::nanoseconds`) are embedded as `Int` nanosecond counts; the
monotonic clock read `steady_clock::now()` is hoisted to an explicit
parameter (a time source `Nat → Int` with a cursor counting reads).
Vector writes `_buffer[i] = x` are embedded totally via `List.set`
(a separate bounds-checked `Option` embedding is given by the `Chk`
operations).
-/

set_option maxHeartbeats 1000000
set_option linter.unnecessarySeqFocus false

namespace ets

/-- Circular history buffer, index-and-flag variant (`ets::CircularBuffer`,
CircularBuffer.h): backing vector, a write index, and a fullness flag. -/
structure CircularBuffer (T : Type) where
  buffer : List T
  index : Nat
  full : Bool
deriving DecidableEq

/-- Constructor `CircularBuffer(std::size_t n)`: `_buffer.resize(n)`
value-initializes `n` slots (`default` embeds `T{}`); `_index = 0`,
`_full = false`.  No validation of `n` is performed. -/
def CircularBuffer.init (T : Type) [Inhabited T] (n : Nat) : CircularBuffer T :=
  ⟨List.replicate n default, 0, false⟩

/-- Member `insert`: `_buffer[_index] = item; _index += 1;
if (_index == _buffer.size()) { _index = 0; _full = true; }`. -/
def CircularBuffer.insert {T : Type} (b : CircularBuffer T) (item : T) : CircularBuffer T :=
  let buf := b.buffer.set b.index item
  if b.index + 1 = buf.length then ⟨buf, 0, true⟩
  else ⟨buf, b.index + 1, b.full⟩

/-- Member `back`: `return _full ? _buffer[_index] : _buffer[0];`. -/
def CircularBuffer.back {T : Type} [Inhabited T] (b : CircularBuffer T) : T :=
  if b.full then b.buffer.getD b.index default else b.buffer.getD 0 default

/-- Member `is_full`: `return _full;`. -/
def CircularBuffer.is_full {T : Type} (b : CircularBuffer T) : Bool := b.full

/-- Repeated `insert`, front of the list first. -/
def CircularBuffer.insertAll {T : Type} (b : CircularBuffer T) (xs : List T) : CircularBuffer T :=
  xs.foldl CircularBuffer.insert b

/-- Bounds-checked embedding of `insert`: the single vector access is
`_buffer[_index]`, in bounds iff `_index < _buffer.size()`. -/
def CircularBuffer.insertChk {T : Type} (b : CircularBuffer T) (item : T) :
    Option (CircularBuffer T) :=
  if b.index < b.buffer.length then some (b.insert item) else none

/-- Bounds-checked embedding of `back`. -/
def CircularBuffer.backChk {T : Type} (b : CircularBuffer T) : Option T :=
  if b.full then b.buffer[b.index]? else b.buffer[0]?

/-- Repeated bounds-checked `insert`. -/
def CircularBuffer.insertAllChk {T : Type} (b : CircularBuffer T) (xs : List T) :
    Option (CircularBuffer T) :=
  xs.foldlM CircularBuffer.insertChk b

/-- Circular history buffer, plain modulo-cursor variant (the
`ets::CircularBuffer` bundled with SlidingWindow.h): backing vector and a
monotone write cursor `_head`; no explicit fullness flag. -/
structure CircularBufferMod (T : Type) where
  buffer : List T
  head : Nat
deriving DecidableEq

/-- Constructor of the modulo-cursor variant: `_buffer.resize(n)`, `_head = 0`. -/
def CircularBufferMod.init (T : Type) [Inhabited T] (n : Nat) : CircularBufferMod T :=
  ⟨List.replicate n default, 0⟩

/-- Member `insert`: `_buffer[_head % _buffer.size()] = item; _head += 1;`. -/
def CircularBufferMod.insert {T : Type} (b : CircularBufferMod T) (item : T) :
    CircularBufferMod T :=
  ⟨b.buffer.set (b.head % b.buffer.length) item, b.head + 1⟩

/-- Member `back`:
`return (_head < _buffer.size()) ? _buffer[0] : _buffer[_head % _buffer.size()];`. -/
def CircularBufferMod.back {T : Type} [Inhabited T] (b : CircularBufferMod T) : T :=
  if b.head < b.buffer.length then b.buffer.getD 0 default
  else b.buffer.getD (b.head % b.buffer.length) default

/-- Member `is_full`: `return _head >= _buffer.size();`. -/
def CircularBufferMod.is_full {T : Type} (b : CircularBufferMod T) : Bool :=
  decide (b.buffer.length ≤ b.head)

/-- Repeated `insert`, front of the list first. -/
def CircularBufferMod.insertAll {T : Type} (b : CircularBufferMod T) (xs : List T) :
    CircularBufferMod T :=
  xs.foldl CircularBufferMod.insert b

/-- Bounds-checked embedding of the modulo-variant `insert`: the single
vector access is `_buffer[_head % _buffer.size()]`. -/
def CircularBufferMod.insertChk {T : Type} (b : CircularBufferMod T) (item : T) :
    Option (CircularBufferMod T) :=
  if b.head % b.buffer.length < b.buffer.length then some (b.insert item) else none

/-- Bounds-checked embedding of the modulo-variant `back`. -/
def CircularBufferMod.backChk {T : Type} (b : CircularBufferMod T) : Option T :=
  if b.head < b.buffer.length then b.buffer[0]?
  else b.buffer[b.head % b.buffer.length]?

/-- Repeated bounds-checked `insert`. -/
def CircularBufferMod.insertAllChk {T : Type} (b : CircularBufferMod T) (xs : List T) :
    Option (CircularBufferMod T) :=
  xs.foldlM CircularBufferMod.insertChk b

/-- Sliding-window admission gate (`ets::SlidingWindow`): capacity,
interval in nanoseconds, and a circular buffer of timestamps of capacity
`max_messages`.  The constructor performs no validation of its
parameters. -/
structure SlidingWindow where
  max_messages : Nat
  interval : Int
  buffer : CircularBuffer Int
deriving DecidableEq

/-- Constructor `SlidingWindow(max_messages, interval)`: stores both
parameters and builds the circular buffer of capacity `max_messages`. -/
def SlidingWindow.init (n : Nat) (i : Int) : SlidingWindow :=
  ⟨n, i, CircularBuffer.init Int n⟩

/-- Member `request()`, with the clock read `now = steady_clock::now()`
hoisted to a parameter.  Returns the delay and the updated window: if the
difference from the oldest stored timestamp is at most the interval and
the buffer is full, the call denies and returns the remaining wait;
otherwise it inserts `now` and returns zero. -/
def SlidingWindow.request (s : SlidingWindow) (now : Int) : Int × SlidingWindow :=
  let dif := now - s.buffer.back
  if dif ≤ s.interval ∧ s.buffer.is_full = true then
    (s.interval - dif, s)
  else
    (0, ⟨s.max_messages, s.interval, s.buffer.insert now⟩)

/-- The negation of the deny condition of `request`: true exactly when the
call takes the insert branch. -/
def SlidingWindow.admits (s : SlidingWindow) (now : Int) : Bool :=
  !(decide (now - s.buffer.back ≤ s.interval) && s.buffer.is_full)

/-- Run `request` on each time of the list in order, collecting the
timestamps that were inserted into the history (the admitted ones). -/
def SlidingWindow.runRequests : SlidingWindow → List Int → SlidingWindow × List Int
  | s, [] => (s, [])
  | s, t :: ts =>
    let r := SlidingWindow.runRequests (s.request t).2 ts
    if s.admits t then (r.1, t :: r.2) else (r.1, r.2)

/-- Messages submitted to the throttler.  `high` embeds the designated
high-priority template parameter `THighPriorityMessage` (carrying a
payload id); `lowA`/`lowB` embed two further concrete message types that
go through the type-erased secondary lane. -/
inductive Msg where
  | high : Nat → Msg
  | lowA : Nat → Msg
  | lowB : Nat → Msg
deriving DecidableEq

/-- Whether a message is of the designated high-priority type. -/
def Msg.isHigh : Msg → Bool
  | Msg.high _ => true
  | _ => false

/-- Priority-aware throttling queue (`ets::Throttler`): the sliding
window, the high-priority lane (payloads of `THighPriorityMessage`), the
type-erased secondary lane, and the trace of messages handed to the
notification sink `_on_send_callback.on_send` in order. -/
structure Throttler where
  sw : SlidingWindow
  high_priority_messages : List Nat
  rest_messages : List Msg
  sent : List Msg
deriving DecidableEq

/-- Constructor `Throttler(max_messages, interval, on_send_callback)`:
builds the sliding window; both lanes start empty, no message sent yet. -/
def Throttler.init (n : Nat) (i : Int) : Throttler :=
  ⟨SlidingWindow.init n i, [], [], []⟩

/-- Member `try_send_message`, with the time source made explicit
(`clock c` is the value of the `c`-th call to `steady_clock::now()`).
First consults the window; on zero delay the sink is notified at once;
otherwise the message is stored — high-priority type into
`_high_priority_messages`, any other type type-erased into
`_rest_messages` — and the delay is returned. -/
def Throttler.try_send_message (clock : Nat → Int) (c : Nat) (th : Throttler) (m : Msg) :
    Int × Throttler × Nat :=
  let r := th.sw.request (clock c)
  if r.1 = 0 then
    (0, ⟨r.2, th.high_priority_messages, th.rest_messages, th.sent ++ [m]⟩, c + 1)
  else
    match m with
    | Msg.high p =>
      (r.1, ⟨r.2, th.high_priority_messages ++ [p], th.rest_messages, th.sent⟩, c + 1)
    | _ =>
      (r.1, ⟨r.2, th.high_priority_messages, th.rest_messages ++ [m], th.sent⟩, c + 1)

/-- Result of one pass of the private member `_send_queued_messages` over
one lane: returned delay, updated window, updated sink trace, the
remaining lane content, and the advanced clock cursor. -/
structure LaneResult (A : Type) where
  delay : Int
  sw : SlidingWindow
  sent : List Msg
  lane : List A
  cursor : Nat

/-- Private member `_send_queued_messages` on one lane: front to back,
consult the window per element; on nonzero delay stop and return it with
the element kept in place; on zero delay notify the sink (`emit` maps a
stored element to the message the sink receives) and erase the front. -/
def sendLane {A : Type} (emit : A → Msg) (clock : Nat → Int) :
    Nat → SlidingWindow → List Msg → List A → LaneResult A
  | c, sw, sent, [] => ⟨0, sw, sent, [], c⟩
  | c, sw, sent, m :: lane =>
    let r := sw.request (clock c)
    if r.1 ≠ 0 then ⟨r.1, r.2, sent, m :: lane, c + 1⟩
    else sendLane emit clock (c + 1) r.2 (sent ++ [emit m]) lane

/-- Member `send_queued_messages`: drain the high-priority lane first; only
if that pass returns zero, drain the type-erased secondary lane; return the
last delay obtained. -/
def Throttler.send_queued_messages (clock : Nat → Int) (c : Nat) (th : Throttler) :
    Int × Throttler × Nat :=
  let r1 := sendLane Msg.high clock c th.sw th.sent th.high_priority_messages
  if r1.delay = 0 then
    let r2 := sendLane id clock r1.cursor r1.sw r1.sent th.rest_messages
    (r2.delay, ⟨r2.sw, r1.lane, r2.lane, r2.sent⟩, r2.cursor)
  else
    (r1.delay, ⟨r1.sw, r1.lane, th.rest_messages, r1.sent⟩, r1.cursor)

/-- One external operation on a throttler: submit a message, or drain the
queued lanes. -/
inductive Op where
  | submit : Msg → Op
  | drain : Op
deriving DecidableEq

/-- Run a sequence of operations against a throttler, threading the clock
cursor. -/
def runOps (clock : Nat → Int) : Nat → Throttler → List Op → Throttler × Nat
  | c, th, [] => (th, c)
  | c, th, Op.submit m :: ops =>
    let r := th.try_send_message clock c m
    runOps clock r.2.2 r.2.1 ops
  | c, th, Op.drain :: ops =>
    let r := th.send_queued_messages clock c
    runOps clock r.2.2 r.2.1 ops

/-- The messages submitted by a sequence of operations, in order. -/
def submittedOf : List Op → List Msg
  | [] => []
  | Op.submit m :: ops => m :: submittedOf ops
  | Op.drain :: ops => submittedOf ops

/-- Number of copies of `m` currently accounted for by a throttler state:
already handed to the sink, waiting in the high-priority lane, or waiting
in the secondary lane. -/
def laneCount (th : Throttler) (m : Msg) : Nat :=
  th.sent.count m + (th.high_priority_messages.map Msg.high).count m +
    th.rest_messages.count m

/-- Writing at an in-bounds position and reading it back yields the written
value. -/
theorem getD_set_self {T : Type} (l : List T) (i : Nat) (a d : T) (h : i < l.length) :
    (l.set i a).getD i d = a := by
  rw [List.getD_eq_getElem?_getD, List.getElem?_eq_getElem (by simpa using h)]
  simp

/-- Writing at one position leaves reads at any other position unchanged. -/
theorem getD_set_ne {T : Type} (l : List T) (i j : Nat) (a d : T) (h : i ≠ j) :
    (l.set i a).getD j d = l.getD j d := by
  rw [List.getD_eq_getElem?_getD, List.getD_eq_getElem?_getD, List.getElem?_set_ne h]

/-- Reading inside the first summand of an append. -/
theorem getD_append_left {T : Type} (l₁ l₂ : List T) (i : Nat) (d : T) (h : i < l₁.length) :
    (l₁ ++ l₂).getD i d = l₁.getD i d := by
  rw [List.getD_eq_getElem?_getD, List.getD_eq_getElem?_getD, List.getElem?_append, if_pos h]

/-- Reading just past the first summand of an append. -/
theorem getD_append_self {T : Type} (l₁ l₂ : List T) (d : T) :
    (l₁ ++ l₂).getD l₁.length d = l₂.getD 0 d := by
  rw [List.getD_eq_getElem?_getD, List.getD_eq_getElem?_getD,
    List.getElem?_append_right (Nat.le_refl _), Nat.sub_self]

/-- Reading a replicated list always yields the replicated value. -/
theorem getD_replicate_default {T : Type} (n j : Nat) (d : T) :
    (List.replicate n d).getD j d = d := by
  rcases Nat.lt_or_ge j n with h | h
  · rw [List.getD_eq_getElem?_getD, List.getElem?_eq_getElem (by simpa using h)]
    simp
  · exact List.getD_eq_default _ _ (by simpa using h)

/-- Two cursor positions strictly less than one capacity apart land on
different slots. -/
theorem mod_ne_of_between {i k n : Nat} (h1 : i < k) (h2 : k < i + n) : i % n ≠ k % n := by
  intro heq
  have hdvd : n ∣ k - i := (Nat.modEq_iff_dvd' (Nat.le_of_lt h1)).mp heq
  rcases hdvd with ⟨c, hc⟩
  rcases c with _ | c
  · omega
  · have hge : n ≤ n * (c + 1) := Nat.le_mul_of_pos_right n (Nat.succ_pos c)
    omega

/-- Reducing a cursor by one full capacity does not change its slot. -/
theorem len_mod_eq (n k : Nat) (hk : n ≤ k) : k % n = (k - n) % n := by
  conv_lhs => rw [← Nat.sub_add_cancel hk]
  rw [Nat.add_mod_right]

theorem CircularBuffer.insertAll_nil {T : Type} (b : CircularBuffer T) :
    b.insertAll [] = b := rfl

theorem CircularBuffer.insertAll_snoc {T : Type} (b : CircularBuffer T) (xs : List T) (x : T) :
    b.insertAll (xs ++ [x]) = (b.insertAll xs).insert x := by
  simp [CircularBuffer.insertAll, List.foldl_append]

theorem CircularBufferMod.insertAll_nil_mod {T : Type} (b : CircularBufferMod T) :
    b.insertAll [] = b := rfl

theorem CircularBufferMod.insertAll_snoc_mod {T : Type} (b : CircularBufferMod T) (xs : List T)
    (x : T) : b.insertAll (xs ++ [x]) = (b.insertAll xs).insert x := by
  simp [CircularBufferMod.insertAll, List.foldl_append]

/-- The modulo-cursor buffer's cursor counts insertions and its capacity is
fixed. -/
theorem CircularBufferMod.insertAll_head_len {T : Type} (xs : List T) :
    ∀ b : CircularBufferMod T, (b.insertAll xs).head = b.head + xs.length ∧
      (b.insertAll xs).buffer.length = b.buffer.length := by
  induction xs with
  | nil => intro b; simp [CircularBufferMod.insertAll]
  | cons x xs ih =>
    intro b
    have h := ih (b.insert x)
    simp only [CircularBufferMod.insertAll, List.foldl_cons] at h ⊢
    refine ⟨?_, ?_⟩
    · rw [h.1]; simp [CircularBufferMod.insert]; omega
    · rw [h.2]; simp [CircularBufferMod.insert]

/-- Full characterization of the modulo-cursor buffer after a sequence of
insertions into a fresh buffer of capacity `n ≥ 1`: the cursor equals the
number of insertions, the capacity is unchanged, each of the last `n`
inserted values sits at its cursor position modulo `n`, and slots never
written still hold the default. -/
theorem CircularBufferMod.insertAll_spec {T : Type} [Inhabited T] (n : Nat) (hn : 1 ≤ n)
    (xs : List T) :
    ((CircularBufferMod.init T n).insertAll xs).head = xs.length ∧
    ((CircularBufferMod.init T n).insertAll xs).buffer.length = n ∧
    (∀ i, i < xs.length → xs.length ≤ i + n →
      ((CircularBufferMod.init T n).insertAll xs).buffer.getD (i % n) default =
        xs.getD i default) ∧
    (∀ j, xs.length ≤ j → j < n →
      ((CircularBufferMod.init T n).insertAll xs).buffer.getD j default = default) := by
  induction xs using List.reverseRecOn with
  | nil =>
    refine ⟨rfl, by simp [CircularBufferMod.init, CircularBufferMod.insertAll], ?_, ?_⟩
    · intro i hi
      exact absurd hi (Nat.not_lt_zero i)
    · intro j _ _
      exact getD_replicate_default n j (default : T)
  | append_singleton xs x ih =>
    obtain ⟨ihh, ihl, ihin, ihout⟩ := ih
    rw [CircularBufferMod.insertAll_snoc_mod]
    have hset : (((CircularBufferMod.init T n).insertAll xs).insert x).buffer =
        ((CircularBufferMod.init T n).insertAll xs).buffer.set (xs.length % n) x := by
      simp [CircularBufferMod.insert, ihh, ihl]
    refine ⟨?_, ?_, ?_, ?_⟩
    · simp [CircularBufferMod.insert, ihh]
    · rw [hset, List.length_set, ihl]
    · intro i hi hle
      simp only [List.length_append, List.length_singleton] at hi hle
      rcases Nat.lt_or_ge i xs.length with hik | hik
      · rw [hset, getD_set_ne _ _ _ _ _ (Ne.symm (mod_ne_of_between hik (by omega))),
          getD_append_left _ _ _ _ hik]
        exact ihin i hik (by omega)
      · have hieq : i = xs.length := by omega
        subst hieq
        rw [hset, getD_set_self _ _ _ _ (by rw [ihl]; exact Nat.mod_lt _ (by omega)),
          getD_append_self]
        rfl
    · intro j hj hjn
      simp only [List.length_append, List.length_singleton] at hj
      have hkn : xs.length < n := by omega
      rw [hset, getD_set_ne _ _ _ _ _ (by rw [Nat.mod_eq_of_lt hkn]; omega)]
      exact ihout j (by omega) hjn

/-- The modulo-cursor buffer is full exactly after at least `n` insertions. -/
theorem CircularBufferMod.insertAll_is_full_mod {T : Type} [Inhabited T] (n : Nat) (xs : List T) :
    ((CircularBufferMod.init T n).insertAll xs).is_full = decide (n ≤ xs.length) := by
  obtain ⟨hh, hl⟩ := CircularBufferMod.insertAll_head_len xs (CircularBufferMod.init T n)
  simp only [CircularBufferMod.is_full]
  rw [hh, hl]
  simp [CircularBufferMod.init]

/-- Slot zero of the modulo-cursor buffer holds the first inserted value
while the buffer is not yet full (or the default before any insertion). -/
theorem CircularBufferMod.getD_zero_of_not_full {T : Type} [Inhabited T] (n : Nat)
    (hn : 1 ≤ n) (xs : List T) (hk : xs.length < n) :
    ((CircularBufferMod.init T n).insertAll xs).buffer.getD 0 default = xs.getD 0 default := by
  obtain ⟨hh, hl, hin, hout⟩ := CircularBufferMod.insertAll_spec n hn xs
  rcases Nat.eq_zero_or_pos xs.length with h0 | hpos
  · rw [hout 0 (by omega) (by omega)]
    have hxs : xs = [] := List.length_eq_zero.mp h0
    simp [hxs]
  · have h := hin 0 hpos (by omega)
    rw [Nat.zero_mod] at h
    exact h

/-- Member `back` of the modulo-cursor buffer once full: the value inserted
`n` steps before the cursor, i.e. the oldest retained one. -/
theorem CircularBufferMod.back_of_full_mod {T : Type} [Inhabited T] (n : Nat) (hn : 1 ≤ n)
    (xs : List T) (hk : n ≤ xs.length) :
    ((CircularBufferMod.init T n).insertAll xs).back = xs.getD (xs.length - n) default := by
  obtain ⟨hh, hl, hin, hout⟩ := CircularBufferMod.insertAll_spec n hn xs
  simp only [CircularBufferMod.back]
  rw [if_neg (by rw [hh, hl]; omega), hh, hl, len_mod_eq n xs.length hk]
  exact hin (xs.length - n) (by omega) (by omega)

/-- Member `back` of the modulo-cursor buffer before it is full: slot zero. -/
theorem CircularBufferMod.back_of_not_full_mod {T : Type} [Inhabited T] (n : Nat) (hn : 1 ≤ n)
    (xs : List T) (hk : xs.length < n) :
    ((CircularBufferMod.init T n).insertAll xs).back = xs.getD 0 default := by
  obtain ⟨hh, hl, _, _⟩ := CircularBufferMod.insertAll_spec n hn xs
  simp only [CircularBufferMod.back]
  rw [if_pos (by rw [hh, hl]; omega)]
  exact CircularBufferMod.getD_zero_of_not_full n hn xs hk

/-- Relation between the two buffer variants after the same insertion
sequence into fresh buffers of capacity `n ≥ 1`: identical backing
storage, the flag variant's index is the cursor modulo `n`, and its flag
records whether at least `n` insertions happened. -/
theorem CircularBuffer.rel_mod {T : Type} [Inhabited T] (n : Nat) (hn : 1 ≤ n) (xs : List T) :
    ((CircularBuffer.init T n).insertAll xs).buffer =
      ((CircularBufferMod.init T n).insertAll xs).buffer ∧
    ((CircularBuffer.init T n).insertAll xs).index = xs.length % n ∧
    ((CircularBuffer.init T n).insertAll xs).full = decide (n ≤ xs.length) := by
  induction xs using List.reverseRecOn with
  | nil =>
    refine ⟨rfl, by simp [CircularBuffer.init, CircularBuffer.insertAll], ?_⟩
    simp only [CircularBuffer.init, CircularBuffer.insertAll, List.foldl_nil]
    have : ¬ n ≤ 0 := by omega
    simp [this]
  | append_singleton xs x ih =>
    obtain ⟨ihbuf, ihidx, ihfull⟩ := ih
    obtain ⟨hmh, hml⟩ := CircularBufferMod.insertAll_head_len xs (CircularBufferMod.init T n)
    have hmh' : ((CircularBufferMod.init T n).insertAll xs).head = xs.length := by
      simpa [CircularBufferMod.init] using hmh
    have hml' : ((CircularBufferMod.init T n).insertAll xs).buffer.length = n := by
      simpa [CircularBufferMod.init] using hml
    have hfl : ((CircularBuffer.init T n).insertAll xs).buffer.length = n := by
      rw [ihbuf]; exact hml'
    rw [CircularBuffer.insertAll_snoc, CircularBufferMod.insertAll_snoc_mod]
    have hbufset : (((CircularBuffer.init T n).insertAll xs).insert x).buffer =
        ((CircularBufferMod.init T n).insertAll xs).buffer.set (xs.length % n) x ∧
        (((CircularBuffer.init T n).insertAll xs).insert x).index = (xs.length + 1) % n ∧
        (((CircularBuffer.init T n).insertAll xs).insert x).full =
          decide (n ≤ xs.length + 1) := by
      simp only [CircularBuffer.insert]
      rw [List.length_set, hfl, ihbuf, ihidx]
      have hmodlt : xs.length % n < n := Nat.mod_lt _ (by omega)
      by_cases hcase : xs.length % n + 1 = n
      · rw [if_pos hcase]
        refine ⟨rfl, ?_, ?_⟩
        · have h1 : (xs.length + 1) % n = (xs.length % n + 1) % n := (Nat.mod_add_mod _ _ _).symm
          rw [h1, hcase, Nat.mod_self]
        · have hle : xs.length % n ≤ xs.length := Nat.mod_le _ _
          have : n ≤ xs.length + 1 := by omega
          simp [this]
      · rw [if_neg hcase]
        refine ⟨rfl, ?_, ?_⟩
        · have h1 : (xs.length + 1) % n = (xs.length % n + 1) % n := (Nat.mod_add_mod _ _ _).symm
          have h2 : (xs.length % n + 1) % n = xs.length % n + 1 := Nat.mod_eq_of_lt (by omega)
          rw [h1, h2]
        · rw [ihfull]
          rcases Nat.lt_or_ge xs.length n with hlt | hge
          · have hm : xs.length % n = xs.length := Nat.mod_eq_of_lt hlt
            have h2 : ¬ n ≤ xs.length := by omega
            have h3 : ¬ n ≤ xs.length + 1 := by omega
            simp [h2, h3]
          · have h2 : n ≤ xs.length + 1 := by omega
            simp [hge, h2]
    refine ⟨?_, ?_, ?_⟩
    · rw [hbufset.1]
      simp only [CircularBufferMod.insert]
      rw [hmh', hml']
    · rw [hbufset.2.1]; simp
    · rw [hbufset.2.2]; simp

/-- The flag-variant buffer is full exactly after at least `n ≥ 1`
insertions. -/
theorem CircularBuffer.insertAll_is_full {T : Type} [Inhabited T] (n : Nat) (hn : 1 ≤ n)
    (xs : List T) :
    ((CircularBuffer.init T n).insertAll xs).is_full = decide (n ≤ xs.length) := by
  simp only [CircularBuffer.is_full]
  exact (CircularBuffer.rel_mod n hn xs).2.2

/-- Member `back` of the flag variant once full: the value inserted `n`
steps before the cursor. -/
theorem CircularBuffer.back_of_full {T : Type} [Inhabited T] (n : Nat) (hn : 1 ≤ n)
    (xs : List T) (hk : n ≤ xs.length) :
    ((CircularBuffer.init T n).insertAll xs).back = xs.getD (xs.length - n) default := by
  obtain ⟨hbuf, hidx, hfull⟩ := CircularBuffer.rel_mod n hn xs
  obtain ⟨hh, hl, hin, hout⟩ := CircularBufferMod.insertAll_spec n hn xs
  simp only [CircularBuffer.back]
  rw [hfull, if_pos (by simpa using hk), hbuf, hidx, len_mod_eq n xs.length hk]
  exact hin (xs.length - n) (by omega) (by omega)

/-- Member `back` of the flag variant before it is full: slot zero. -/
theorem CircularBuffer.back_of_not_full {T : Type} [Inhabited T] (n : Nat) (hn : 1 ≤ n)
    (xs : List T) (hk : xs.length < n) :
    ((CircularBuffer.init T n).insertAll xs).back = xs.getD 0 default := by
  obtain ⟨hbuf, hidx, hfull⟩ := CircularBuffer.rel_mod n hn xs
  simp only [CircularBuffer.back]
  rw [hfull, if_neg (by simp; omega), hbuf]
  exact CircularBufferMod.getD_zero_of_not_full n hn xs hk

/-- An in-bounds optional read agrees with the totalized read. -/
theorem getElem?_eq_some_getD {T : Type} (l : List T) (i : Nat) (d : T) (h : i < l.length) :
    l[i]? = some (l.getD i d) := by
  rw [List.getD_eq_getElem?_getD, List.getElem?_eq_getElem h]
  rfl

/-- On a modulo-cursor buffer of positive capacity, every bounds-checked
insertion succeeds and agrees with the total embedding. -/
theorem CircularBufferMod.insertAllChk_eq_mod {T : Type} (xs : List T) :
    ∀ b : CircularBufferMod T, 1 ≤ b.buffer.length →
      b.insertAllChk xs = some (b.insertAll xs) := by
  induction xs with
  | nil => intro b _; rfl
  | cons x xs ih =>
    intro b hb
    have hin : b.head % b.buffer.length < b.buffer.length := Nat.mod_lt _ (by omega)
    have hchk : b.insertChk x = some (b.insert x) := by
      simp only [CircularBufferMod.insertChk]
      rw [if_pos hin]
    have hlen : (b.insert x).buffer.length = b.buffer.length := by
      simp [CircularBufferMod.insert]
    simp only [CircularBufferMod.insertAllChk, CircularBufferMod.insertAll, List.foldlM_cons,
      List.foldl_cons, hchk, Option.bind_some, Option.pure_def, Option.bind_eq_bind]
    exact ih (b.insert x) (by omega)

/-- On a modulo-cursor buffer of positive capacity the bounds-checked
`back` succeeds and agrees with the total embedding. -/
theorem CircularBufferMod.backChk_eq_mod {T : Type} [Inhabited T] (b : CircularBufferMod T)
    (hb : 1 ≤ b.buffer.length) : b.backChk = some b.back := by
  simp only [CircularBufferMod.backChk, CircularBufferMod.back]
  split
  · exact getElem?_eq_some_getD _ _ _ (by omega)
  · exact getElem?_eq_some_getD _ _ _ (Nat.mod_lt _ (by omega))

/-- On a flag-variant buffer whose index is in bounds, every bounds-checked
insertion succeeds, agrees with the total embedding, and keeps the index in
bounds. -/
theorem CircularBuffer.insertAllChk_eq {T : Type} (xs : List T) :
    ∀ b : CircularBuffer T, b.index < b.buffer.length →
      (b.insertAllChk xs = some (b.insertAll xs) ∧
       (b.insertAll xs).index < (b.insertAll xs).buffer.length) := by
  induction xs with
  | nil => intro b hb; exact ⟨rfl, hb⟩
  | cons x xs ih =>
    intro b hb
    have hstep : (b.insert x).index < (b.insert x).buffer.length := by
      simp only [CircularBuffer.insert]
      split
      · next h => simp only [List.length_set] at *; omega
      · next h => simp only [List.length_set] at *; omega
    have hchk : b.insertChk x = some (b.insert x) := by
      simp only [CircularBuffer.insertChk]
      rw [if_pos hb]
    have h := ih (b.insert x) hstep
    simp only [CircularBuffer.insertAllChk, CircularBuffer.insertAll, List.foldlM_cons,
      List.foldl_cons, hchk, Option.bind_some, Option.pure_def, Option.bind_eq_bind]
    exact ⟨h.1, h.2⟩

/-- On a flag-variant buffer whose index is in bounds the bounds-checked
`back` succeeds and agrees with the total embedding. -/
theorem CircularBuffer.backChk_eq {T : Type} [Inhabited T] (b : CircularBuffer T)
    (hb : b.index < b.buffer.length) : b.backChk = some b.back := by
  simp only [CircularBuffer.backChk, CircularBuffer.back]
  split
  · exact getElem?_eq_some_getD _ _ _ hb
  · exact getElem?_eq_some_getD _ _ _ (by omega)

/-- Claim C7: for capacity `n ≥ 1` and `k ≥ n` insertions of `v1..vk`, both
ring variants return from `back()` the value `v[k-n+1]` (index `k - n` from
zero), the retained value written longest ago; and `is_full()` after the
first `k` insertions is false for `k < n`, becomes true exactly at the
`n`-th insertion, and never reverts to false afterwards. -/
theorem ring_back_after_full_and_fullness (T : Type) [Inhabited T] (n : Nat) (xs : List T)
    (hn : 1 ≤ n) :
    (n ≤ xs.length →
      ((CircularBufferMod.init T n).insertAll xs).back = xs.getD (xs.length - n) default ∧
      ((CircularBuffer.init T n).insertAll xs).back = xs.getD (xs.length - n) default) ∧
    (∀ k, k ≤ xs.length →
      ((CircularBufferMod.init T n).insertAll (xs.take k)).is_full = decide (n ≤ k) ∧
      ((CircularBuffer.init T n).insertAll (xs.take k)).is_full = decide (n ≤ k)) := by
  refine ⟨fun hk => ⟨CircularBufferMod.back_of_full_mod n hn xs hk,
    CircularBuffer.back_of_full n hn xs hk⟩, ?_⟩
  intro k hk
  have hlen : (xs.take k).length = k := by
    rw [List.length_take]; omega
  refine ⟨?_, ?_⟩
  · rw [CircularBufferMod.insertAll_is_full_mod, hlen]
  · rw [CircularBuffer.insertAll_is_full n hn, hlen]

/-- Witness for C7 at capacity 2 and insertions 10, 20, 30. -/
theorem ring_back_after_full_and_fullness_witness :
    (((CircularBufferMod.init Int 2).insertAll [10, 20, 30]).back =
        ([10, 20, 30] : List Int).getD (([10, 20, 30] : List Int).length - 2) default ∧
      ((CircularBuffer.init Int 2).insertAll [10, 20, 30]).back =
        ([10, 20, 30] : List Int).getD (([10, 20, 30] : List Int).length - 2) default) ∧
    (((CircularBufferMod.init Int 2).insertAll (([10, 20, 30] : List Int).take 2)).is_full =
        decide (2 ≤ 2) ∧
      ((CircularBuffer.init Int 2).insertAll (([10, 20, 30] : List Int).take 2)).is_full =
        decide (2 ≤ 2)) :=
  ⟨(ring_back_after_full_and_fullness Int 2 [10, 20, 30] (by decide)).1 (by decide),
   (ring_back_after_full_and_fullness Int 2 [10, 20, 30] (by decide)).2 2 (by decide)⟩

/-- Counterexample to claim C6 as stated: with capacity `n = 2` and a
single inserted value `5` (so `1 ≤ k < n`), both ring variants return `5`
— the first inserted value — from `back()`, not the placeholder default
`0`. -/
theorem ring_back_before_full_cex :
    (1 : Nat) < 2 ∧
    ((CircularBufferMod.init Int 2).insertAll [5]).back = 5 ∧
    ((CircularBuffer.init Int 2).insertAll [5]).back = 5 ∧
    (5 : Int) ≠ (default : Int) := by decide

/-- Claim C6 as amended: for capacity `n ≥ 1`, while fewer than `n` values
have been inserted, `back()` returns slot zero — the default placeholder
before the first insertion and the FIRST inserted value `v1` from then on
(`xs.getD 0 default` covers both cases). -/
theorem ring_back_before_full_returns_first (T : Type) [Inhabited T] (n : Nat)
    (xs : List T) (hn : 1 ≤ n) (hk : xs.length < n) :
    ((CircularBufferMod.init T n).insertAll xs).back = xs.getD 0 default ∧
    ((CircularBuffer.init T n).insertAll xs).back = xs.getD 0 default :=
  ⟨CircularBufferMod.back_of_not_full_mod n hn xs hk, CircularBuffer.back_of_not_full n hn xs hk⟩

/-- Witness for amended C6 at capacity 3 and insertions 4, 5. -/
theorem ring_back_before_full_returns_first_witness :
    ((CircularBufferMod.init Int 3).insertAll [4, 5]).back =
      ([4, 5] : List Int).getD 0 default ∧
    ((CircularBuffer.init Int 3).insertAll [4, 5]).back =
      ([4, 5] : List Int).getD 0 default :=
  ring_back_before_full_returns_first Int 3 [4, 5] (by decide) (by decide)

/-- Claim C9: the modulo-cursor and the index-and-flag ring buffers are
observationally equivalent: for every capacity `n ≥ 1` and every insertion
sequence, `back()` and `is_full()` agree (quantifying over all sequences
covers every intermediate step). -/
theorem ring_variants_observationally_equal (T : Type) [Inhabited T] (n : Nat)
    (xs : List T) (hn : 1 ≤ n) :
    ((CircularBuffer.init T n).insertAll xs).back =
      ((CircularBufferMod.init T n).insertAll xs).back ∧
    ((CircularBuffer.init T n).insertAll xs).is_full =
      ((CircularBufferMod.init T n).insertAll xs).is_full := by
  refine ⟨?_, ?_⟩
  · rcases Nat.lt_or_ge xs.length n with hk | hk
    · rw [CircularBuffer.back_of_not_full n hn xs hk,
        CircularBufferMod.back_of_not_full_mod n hn xs hk]
    · rw [CircularBuffer.back_of_full n hn xs hk, CircularBufferMod.back_of_full_mod n hn xs hk]
  · rw [CircularBuffer.insertAll_is_full n hn, CircularBufferMod.insertAll_is_full_mod]

/-- Witness for C9 at capacity 1 and insertions 7, 8. -/
theorem ring_variants_observationally_equal_witness :
    ((CircularBuffer.init Int 1).insertAll [7, 8]).back =
      ((CircularBufferMod.init Int 1).insertAll [7, 8]).back ∧
    ((CircularBuffer.init Int 1).insertAll [7, 8]).is_full =
      ((CircularBufferMod.init Int 1).insertAll [7, 8]).is_full :=
  ring_variants_observationally_equal Int 1 [7, 8] (by decide)

/-- Claim C10: with capacity `n ≥ 1`, every backing-storage access of
`insert` and `back` is in bounds, so the bounds-checked embeddings succeed
and agree with the total ones for any insertion sequence; with `n = 0`
construction still succeeds but `insert` reaches the out-of-bounds branch
in both variants. -/
theorem ring_accesses_in_bounds (T : Type) [Inhabited T] :
    (∀ (n : Nat) (xs : List T), 1 ≤ n →
      (CircularBufferMod.init T n).insertAllChk xs =
        some ((CircularBufferMod.init T n).insertAll xs) ∧
      ((CircularBufferMod.init T n).insertAll xs).backChk =
        some ((CircularBufferMod.init T n).insertAll xs).back ∧
      (CircularBuffer.init T n).insertAllChk xs =
        some ((CircularBuffer.init T n).insertAll xs) ∧
      ((CircularBuffer.init T n).insertAll xs).backChk =
        some ((CircularBuffer.init T n).insertAll xs).back) ∧
    (CircularBufferMod.init Int 0).insertChk 7 = none ∧
    (CircularBuffer.init Int 0).insertChk 7 = none ∧
    CircularBufferMod.init Int 0 = ⟨[], 0⟩ ∧
    CircularBuffer.init Int 0 = ⟨[], 0, false⟩ := by
  refine ⟨?_, by decide, by decide, by decide, by decide⟩
  intro n xs hn
  have hinit : (CircularBufferMod.init T n).buffer.length = n := by
    simp [CircularBufferMod.init]
  have hinitF : (CircularBuffer.init T n).index < (CircularBuffer.init T n).buffer.length := by
    simp [CircularBuffer.init]; omega
  obtain ⟨hl1, hl2⟩ := CircularBufferMod.insertAll_head_len xs (CircularBufferMod.init T n)
  obtain ⟨hF1, hF2⟩ := CircularBuffer.insertAllChk_eq xs (CircularBuffer.init T n) hinitF
  refine ⟨CircularBufferMod.insertAllChk_eq_mod xs (CircularBufferMod.init T n) (by omega),
    CircularBufferMod.backChk_eq_mod _ (by omega), hF1, CircularBuffer.backChk_eq _ hF2⟩

/-- Evaluation of `request` through the admission predicate: on admission
it inserts `now` and returns zero; on denial it returns the remaining wait
and leaves the window untouched. -/
theorem SlidingWindow.request_eq (s : SlidingWindow) (now : Int) :
    s.request now = if s.admits now
      then (0, ⟨s.max_messages, s.interval, s.buffer.insert now⟩)
      else (s.interval - (now - s.buffer.back), s) := by
  simp only [SlidingWindow.request, SlidingWindow.admits]
  by_cases h1 : now - s.buffer.back ≤ s.interval <;>
    by_cases h2 : s.buffer.is_full = true <;>
      simp [h1, h2]

/-- Claim C1 concerns a code bug, evaluated here at the failing input: a
window of capacity 1 and interval 5 that admitted a request at time 0 is
full and holds oldest timestamp 0; a `request` at time 5 (so
`now - oldest = interval` exactly) returns delay 0 — which per the claim
and the function's own doc comment signals admission — yet DENIES: the
state is unchanged and the timestamp 5 is not inserted into the history. -/
theorem request_boundary_denies_with_zero_delay :
    ((((SlidingWindow.init 1 5).request 0).2).request 5).1 = 0 ∧
    ((((SlidingWindow.init 1 5).request 0).2).request 5).2 = ((SlidingWindow.init 1 5).request 0).2 ∧
    ((SlidingWindow.init 1 5).request 0).2.buffer.is_full = true ∧
    (5 : Int) - ((SlidingWindow.init 1 5).request 0).2.buffer.back = 5 := by decide

/-- Counterexample to claim C2 as stated: construction with
`max_events == 0` and with `interval ≤ 0` is not rejected — the
constructor builds a fully defined instance in both cases (the source
performs no parameter validation at all). -/
theorem construction_never_rejects_cex :
    SlidingWindow.init 0 0 = ⟨0, 0, ⟨[], 0, false⟩⟩ ∧
    SlidingWindow.init 0 (-1) = ⟨0, -1, ⟨[], 0, false⟩⟩ := by decide

/-- Claim C2 as amended: construction performs no validation whatsoever;
for every `max_events` and `interval` — including `max_events = 0` and
`interval ≤ 0` — an instance is built whose fields are exactly the given
parameters together with a zero-initialized history of capacity
`max_events`. -/
theorem construction_stores_parameters_unvalidated (n : Nat) (i : Int) :
    SlidingWindow.init n i = ⟨n, i, ⟨List.replicate n 0, 0, false⟩⟩ := rfl

/-- Claim C8: a denied admission attempt mutates nothing: whenever
`request` returns a nonzero delay the whole window state (timestamps,
cursor, fullness flag) is exactly as before, and whenever
`try_send_message` returns a nonzero delay the throttler's window substate
is exactly as before. -/
theorem denied_request_leaves_state_unchanged :
    (∀ (s : SlidingWindow) (now : Int), (s.request now).1 ≠ 0 → (s.request now).2 = s) ∧
    (∀ (clock : Nat → Int) (c : Nat) (th : Throttler) (m : Msg),
      (th.try_send_message clock c m).1 ≠ 0 → (th.try_send_message clock c m).2.1.sw = th.sw) := by
  have hsw : ∀ (s : SlidingWindow) (now : Int), (s.request now).1 ≠ 0 → (s.request now).2 = s := by
    intro s now h
    rw [SlidingWindow.request_eq] at h ⊢
    by_cases ha : s.admits now
    · rw [if_pos ha] at h
      simp at h
    · rw [if_neg ha]
  refine ⟨hsw, ?_⟩
  intro clock c th m h
  simp only [Throttler.try_send_message] at h ⊢
  by_cases h0 : (th.sw.request (clock c)).1 = 0
  · rw [if_pos h0] at h
    simp at h
  · rw [if_neg h0] at h ⊢
    have hfr := hsw th.sw (clock c) h0
    cases m <;> simp [hfr]

/-- Witness for C8: a full capacity-1 window denies at time 1 with delay 4
and is left unchanged; a throttler in the same situation keeps its window
substate on a denied submission. -/
theorem denied_request_leaves_state_unchanged_witness :
    ((((SlidingWindow.init 1 5).request 0).2).request 1).2 = ((SlidingWindow.init 1 5).request 0).2 ∧
    ((((Throttler.init 1 5).try_send_message (fun _ => 0) 0 (Msg.high 1)).2.1).try_send_message
        (fun _ => 0) 1 (Msg.lowA 2)).2.1.sw =
      (((Throttler.init 1 5).try_send_message (fun _ => 0) 0 (Msg.high 1)).2.1).sw :=
  ⟨denied_request_leaves_state_unchanged.1 _ 1 (by decide),
   denied_request_leaves_state_unchanged.2 (fun _ => 0) 1 _ (Msg.lowA 2) (by decide)⟩

/-- Minimum-spacing property of the admitted-timestamp list: each admitted
timestamp is more than `interval` later than the one `n` positions before
it.  This is exactly what the deny condition of `request` enforces at every
admission once the history is full. -/
def Sep (n : Nat) (i : Int) (A : List Int) : Prop :=
  ∀ m, n ≤ m → m < A.length → i < A.getD m 0 - A.getD (m - n) 0

/-- The empty admitted list is trivially spaced. -/
theorem Sep_nil (n : Nat) (i : Int) : Sep n i [] := by
  intro m _ hm
  exact absurd hm (Nat.not_lt_zero m)

/-- The oldest stored timestamp of a window whose history received exactly
the admitted list `A`. -/
theorem run_buffer_back (n : Nat) (hn : 1 ≤ n) (A : List Int) :
    ((CircularBuffer.init Int n).insertAll A).back =
      if n ≤ A.length then A.getD (A.length - n) 0 else A.getD 0 0 := by
  split
  · next h => exact CircularBuffer.back_of_full n hn A h
  · next h => exact CircularBuffer.back_of_not_full n hn A (by omega)

/-- The fullness flag of a window whose history received exactly the
admitted list `A`. -/
theorem run_buffer_is_full (n : Nat) (hn : 1 ≤ n) (A : List Int) :
    ((CircularBuffer.init Int n).insertAll A).is_full = decide (n ≤ A.length) :=
  CircularBuffer.insertAll_is_full n hn A

/-- Unfolding of one step of `runRequests`. -/
theorem SlidingWindow.runRequests_cons (s : SlidingWindow) (t : Int) (ts : List Int) :
    SlidingWindow.runRequests s (t :: ts) =
      if s.admits t
      then ((SlidingWindow.runRequests (s.request t).2 ts).1,
            t :: (SlidingWindow.runRequests (s.request t).2 ts).2)
      else SlidingWindow.runRequests (s.request t).2 ts := by
  simp only [SlidingWindow.runRequests]

/-- Main invariant of a run of `request` calls at monotone times: starting
from a window whose history holds the admitted list `A`, the total admitted
list stays sorted, stays minimum-spaced, and every newly admitted timestamp
is one of the requested times. -/
theorem SlidingWindow.run_invariant (n : Nat) (i : Int) (hn : 1 ≤ n) :
    ∀ ts A : List Int, List.Sorted (· ≤ ·) ts →
      List.Sorted (· ≤ ·) A →
      (∀ a ∈ A, ∀ t ∈ ts, a ≤ t) →
      Sep n i A →
      List.Sorted (· ≤ ·) (A ++
        (SlidingWindow.runRequests ⟨n, i, (CircularBuffer.init Int n).insertAll A⟩ ts).2) ∧
      Sep n i (A ++
        (SlidingWindow.runRequests ⟨n, i, (CircularBuffer.init Int n).insertAll A⟩ ts).2) ∧
      (∀ a ∈ (SlidingWindow.runRequests ⟨n, i, (CircularBuffer.init Int n).insertAll A⟩ ts).2,
        a ∈ ts) := by
  intro ts
  induction ts with
  | nil =>
    intro A _ hA _ hSep
    refine ⟨?_, ?_, ?_⟩
    · simp only [SlidingWindow.runRequests, List.append_nil]
      exact hA
    · simp only [SlidingWindow.runRequests, List.append_nil]
      exact hSep
    · simp only [SlidingWindow.runRequests]
      intro a ha
      exact absurd ha (List.not_mem_nil a)
  | cons t ts ih =>
    intro A hts hA hAle hSep
    have hts' : List.Sorted (· ≤ ·) ts := (List.sorted_cons.mp hts).2
    have htle : ∀ u ∈ ts, t ≤ u := (List.sorted_cons.mp hts).1
    by_cases hadm : (⟨n, i, (CircularBuffer.init Int n).insertAll A⟩ :
        SlidingWindow).admits t
    · -- admitted: the window inserts t, so its history now holds A ++ [t]
      have hreq : ((⟨n, i, (CircularBuffer.init Int n).insertAll A⟩ :
          SlidingWindow).request t).2 =
          ⟨n, i, (CircularBuffer.init Int n).insertAll (A ++ [t])⟩ := by
        rw [SlidingWindow.request_eq, if_pos hadm, CircularBuffer.insertAll_snoc]
      have hA' : List.Sorted (· ≤ ·) (A ++ [t]) := by
        rw [List.Sorted, List.pairwise_append]
        refine ⟨hA, List.sorted_singleton t, ?_⟩
        intro a ha b hb
        rw [List.mem_singleton] at hb
        rw [hb]
        exact hAle a ha t (List.mem_cons_self t ts)
      have hAle' : ∀ a ∈ A ++ [t], ∀ u ∈ ts, a ≤ u := by
        intro a ha u hu
        rcases List.mem_append.mp ha with h | h
        · exact hAle a h u (by simp [hu])
        · rw [List.mem_singleton] at h
          rw [h]
          exact htle u hu
      have hSep' : Sep n i (A ++ [t]) := by
        intro m hm hmlen
        rw [List.length_append, List.length_singleton] at hmlen
        rcases Nat.lt_or_ge m A.length with hmA | hmA
        · rw [getD_append_left _ _ _ _ hmA, getD_append_left _ _ _ _ (by omega)]
          exact hSep m hm hmA
        · have hmeq : m = A.length := by omega
          subst hmeq
          have hfull : n ≤ A.length := by omega
          -- the admission condition with a full history forces the spacing
          have hcond : ¬ (t - ((CircularBuffer.init Int n).insertAll A).back ≤ i) := by
            intro hle
            have hf := run_buffer_is_full n hn A
            simp only [SlidingWindow.admits] at hadm
            rw [hf] at hadm
            simp [hle, hfull] at hadm
          rw [run_buffer_back n hn A, if_pos hfull] at hcond
          rw [getD_append_self, getD_append_left _ _ _ _ (by omega)]
          have hsing : ([t] : List Int).getD 0 0 = t := rfl
          rw [hsing]
          omega
      have hstep := ih (A ++ [t]) hts' hA' hAle' hSep'
      have hsnd : (SlidingWindow.runRequests ⟨n, i, (CircularBuffer.init Int n).insertAll A⟩
          (t :: ts)).2 =
          t :: (SlidingWindow.runRequests
            ⟨n, i, (CircularBuffer.init Int n).insertAll (A ++ [t])⟩ ts).2 := by
        rw [SlidingWindow.runRequests_cons, if_pos hadm, hreq]
      rw [hsnd]
      have hflat : A ++ t :: (SlidingWindow.runRequests
            ⟨n, i, (CircularBuffer.init Int n).insertAll (A ++ [t])⟩ ts).2 =
          (A ++ [t]) ++ (SlidingWindow.runRequests
            ⟨n, i, (CircularBuffer.init Int n).insertAll (A ++ [t])⟩ ts).2 := by
        rw [List.append_assoc, List.singleton_append]
      refine ⟨?_, ?_, ?_⟩
      · rw [hflat]; exact hstep.1
      · rw [hflat]; exact hstep.2.1
      · intro a ha
        rcases (List.mem_cons).mp ha with h | h
        · exact h ▸ List.mem_cons_self t ts
        · exact List.mem_cons_of_mem t (hstep.2.2 a h)
    · -- denied: the window state is unchanged
      have hreq : ((⟨n, i, (CircularBuffer.init Int n).insertAll A⟩ :
          SlidingWindow).request t).2 =
          ⟨n, i, (CircularBuffer.init Int n).insertAll A⟩ := by
        rw [SlidingWindow.request_eq, if_neg hadm]
      have hstep := ih A hts' hA (fun a ha u hu => hAle a ha u (by simp [hu])) hSep
      rw [SlidingWindow.runRequests_cons, if_neg hadm, hreq]
      exact ⟨hstep.1, hstep.2.1, fun a ha => List.mem_cons_of_mem t (hstep.2.2 a ha)⟩

/-- Counting consequence of minimum spacing: at any time `T` at or after
every admitted timestamp, at most `n` admitted timestamps lie within the
trailing window `(T - i, T]`. -/
theorem Sep_count_le (n : Nat) (i T : Int) (A : List Int)
    (hSep : Sep n i A) (hT : ∀ a ∈ A, a ≤ T) :
    (A.filter (fun a => decide (T - a ≤ i))).length ≤ n := by
  rcases le_or_lt A.length n with hlen | hlen
  · exact Nat.le_trans (List.length_filter_le _ _) hlen
  · have hfail : ∀ x ∈ A.take (A.length - n), ¬ (fun a => decide (T - a ≤ i)) x = true := by
      intro x hx
      obtain ⟨j, hj, hxj⟩ := List.getElem_of_mem hx
      have hjlen : j < A.length - n := by
        rw [List.length_take] at hj
        omega
      have hxval : x = A.getD j 0 := by
        rw [List.getD_eq_getElem?_getD, List.getElem?_eq_getElem (by omega)]
        rw [← hxj, List.getElem_take]
        rfl
      have hsep := hSep (j + n) (by omega) (by omega)
      have hsub : j + n - n = j := by omega
      rw [hsub] at hsep
      have hmem : A.getD (j + n) 0 ∈ A := by
        rw [List.getD_eq_getElem?_getD, List.getElem?_eq_getElem (by omega)]
        exact List.getElem_mem (by omega)
      have hle := hT _ hmem
      simp only [decide_eq_true_eq]
      omega
    have hsplit : A.filter (fun a => decide (T - a ≤ i)) =
        (A.take (A.length - n)).filter (fun a => decide (T - a ≤ i)) ++
        (A.drop (A.length - n)).filter (fun a => decide (T - a ≤ i)) := by
      rw [← List.filter_append, List.take_append_drop]
    rw [hsplit, List.length_append, List.filter_eq_nil_iff.mpr hfail]
    have hdrop : (A.drop (A.length - n)).length = n := by
      rw [List.length_drop]
      omega
    have := List.length_filter_le (fun a => decide (T - a ≤ i)) (A.drop (A.length - n))
    simp only [List.length_nil]
    omega

/-- Claim C5: for a window built with `max_events = n ≥ 1` and
`interval = i > 0`, under a monotone clock (sorted request times), after
any sequence of `request` calls the number of admitted timestamps recorded
within the trailing interval of any current time `T` never exceeds `n`. -/
theorem sliding_window_admission_bound (n : Nat) (i : Int) (ts : List Int) (T : Int)
    (hn : 1 ≤ n) (_hi : 0 < i) (hts : List.Sorted (· ≤ ·) ts) (hT : ∀ t ∈ ts, t ≤ T) :
    ((((SlidingWindow.init n i).runRequests ts).2).filter
      (fun t => decide (T - t ≤ i))).length ≤ n := by
  have hrun := SlidingWindow.run_invariant n i hn ts [] hts List.sorted_nil
    (by intro a ha; exact absurd ha (List.not_mem_nil a)) (Sep_nil n i)
  rw [List.nil_append] at hrun
  obtain ⟨hsort, hsep, hmem⟩ := hrun
  exact Sep_count_le n i T _ hsep (fun a ha => hT a (hmem a ha))

/-- Witness for C5: capacity 1, interval 1, two requests at time 0 observed
from time 0 — only the first is admitted, so at most one recorded timestamp
lies in the trailing interval. -/
theorem sliding_window_admission_bound_witness :
    ((((SlidingWindow.init 1 1).runRequests [0, 0]).2).filter
      (fun t => decide ((0 : Int) - t ≤ 1))).length ≤ 1 :=
  sliding_window_admission_bound 1 1 [0, 0] 0 (by decide) (by decide) (by decide)
    (by decide)

/-- Unfolding of one step of `sendLane` on a nonempty lane. -/
theorem sendLane_cons {A : Type} (emit : A → Msg) (clock : Nat → Int) (c : Nat)
    (sw : SlidingWindow) (sent : List Msg) (m : A) (lane : List A) :
    sendLane emit clock c sw sent (m :: lane) =
      if (sw.request (clock c)).1 ≠ 0
      then ⟨(sw.request (clock c)).1, (sw.request (clock c)).2, sent, m :: lane, c + 1⟩
      else sendLane emit clock (c + 1) (sw.request (clock c)).2 (sent ++ [emit m]) lane := by
  simp only [sendLane]

/-- Characterization of one `_send_queued_messages` pass over a lane: some
prefix of length `j` is notified to the sink front-to-back in submission
order and erased from the front, the rest of the lane is untouched, and the
pass returns zero only if the whole lane was sent. -/
theorem sendLane_spec {A : Type} (emit : A → Msg) (clock : Nat → Int) :
    ∀ (lane : List A) (c : Nat) (sw : SlidingWindow) (sent : List Msg),
      ∃ j, j ≤ lane.length ∧
        (sendLane emit clock c sw sent lane).sent = sent ++ (lane.take j).map emit ∧
        (sendLane emit clock c sw sent lane).lane = lane.drop j ∧
        ((sendLane emit clock c sw sent lane).delay = 0 → j = lane.length) := by
  intro lane
  induction lane with
  | nil =>
    intro c sw sent
    exact ⟨0, by simp [sendLane]⟩
  | cons m lane ih =>
    intro c sw sent
    by_cases h0 : (sw.request (clock c)).1 ≠ 0
    · refine ⟨0, by omega, ?_, ?_, ?_⟩
      · rw [sendLane_cons, if_pos h0]
        simp
      · rw [sendLane_cons, if_pos h0]
        rfl
      · rw [sendLane_cons, if_pos h0]
        intro hz
        exact absurd hz h0
    · obtain ⟨j, hj, hsent, hlane, hzero⟩ :=
        ih (c + 1) (sw.request (clock c)).2 (sent ++ [emit m])
      refine ⟨j + 1, by simp; omega, ?_, ?_, ?_⟩
      · rw [sendLane_cons, if_neg h0, hsent, List.take_succ_cons, List.map_cons,
          List.append_assoc, List.singleton_append]
      · rw [sendLane_cons, if_neg h0, hlane, List.drop_succ_cons]
      · rw [sendLane_cons, if_neg h0]
        intro hz
        have := hzero hz
        simp [this]

/-- Unfolding of `send_queued_messages` when the high-priority pass ends
with a nonzero delay: that delay is returned at once and the secondary lane
is not consulted — it is left untouched, no window request is made for it
(the clock cursor is the high pass's), and no secondary message is sent. -/
theorem send_queued_of_high_delay (clock : Nat → Int) (th : Throttler) (c : Nat)
    (h : (sendLane Msg.high clock c th.sw th.sent th.high_priority_messages).delay ≠ 0) :
    th.send_queued_messages clock c =
      ((sendLane Msg.high clock c th.sw th.sent th.high_priority_messages).delay,
       ⟨(sendLane Msg.high clock c th.sw th.sent th.high_priority_messages).sw,
        (sendLane Msg.high clock c th.sw th.sent th.high_priority_messages).lane,
        th.rest_messages,
        (sendLane Msg.high clock c th.sw th.sent th.high_priority_messages).sent⟩,
       (sendLane Msg.high clock c th.sw th.sent th.high_priority_messages).cursor) := by
  simp only [Throttler.send_queued_messages]
  rw [if_neg h]

/-- Unfolding of `send_queued_messages` when the high-priority pass ends
with delay zero: the secondary lane is then drained from where the high
pass left off. -/
theorem send_queued_of_high_zero (clock : Nat → Int) (th : Throttler) (c : Nat)
    (h : (sendLane Msg.high clock c th.sw th.sent th.high_priority_messages).delay = 0) :
    th.send_queued_messages clock c =
      ((sendLane id clock
          (sendLane Msg.high clock c th.sw th.sent th.high_priority_messages).cursor
          (sendLane Msg.high clock c th.sw th.sent th.high_priority_messages).sw
          (sendLane Msg.high clock c th.sw th.sent th.high_priority_messages).sent
          th.rest_messages).delay,
       ⟨(sendLane id clock
          (sendLane Msg.high clock c th.sw th.sent th.high_priority_messages).cursor
          (sendLane Msg.high clock c th.sw th.sent th.high_priority_messages).sw
          (sendLane Msg.high clock c th.sw th.sent th.high_priority_messages).sent
          th.rest_messages).sw,
        (sendLane Msg.high clock c th.sw th.sent th.high_priority_messages).lane,
        (sendLane id clock
          (sendLane Msg.high clock c th.sw th.sent th.high_priority_messages).cursor
          (sendLane Msg.high clock c th.sw th.sent th.high_priority_messages).sw
          (sendLane Msg.high clock c th.sw th.sent th.high_priority_messages).sent
          th.rest_messages).lane,
        (sendLane id clock
          (sendLane Msg.high clock c th.sw th.sent th.high_priority_messages).cursor
          (sendLane Msg.high clock c th.sw th.sent th.high_priority_messages).sw
          (sendLane Msg.high clock c th.sw th.sent th.high_priority_messages).sent
          th.rest_messages).sent⟩,
       (sendLane id clock
          (sendLane Msg.high clock c th.sw th.sent th.high_priority_messages).cursor
          (sendLane Msg.high clock c th.sw th.sent th.high_priority_messages).sw
          (sendLane Msg.high clock c th.sw th.sent th.high_priority_messages).sent
          th.rest_messages).cursor) := by
  simp only [Throttler.send_queued_messages]
  rw [if_pos h]

/-- Full characterization of one `send_queued_messages` call: a prefix of
length `j` of the high-priority lane and a prefix of length `k` of the
secondary lane are notified in that order (high first, each lane
front-to-back) and erased; a secondary message is only ever sent once the
high lane was completely drained; and a returned delay of zero means both
lanes were emptied. -/
theorem Throttler.send_queued_spec (clock : Nat → Int) (th : Throttler) (c : Nat) :
    ∃ j k, j ≤ th.high_priority_messages.length ∧ k ≤ th.rest_messages.length ∧
      (th.send_queued_messages clock c).2.1.high_priority_messages =
        th.high_priority_messages.drop j ∧
      (th.send_queued_messages clock c).2.1.rest_messages = th.rest_messages.drop k ∧
      (th.send_queued_messages clock c).2.1.sent =
        th.sent ++ (th.high_priority_messages.take j).map Msg.high ++
          th.rest_messages.take k ∧
      (0 < k → j = th.high_priority_messages.length) ∧
      ((th.send_queued_messages clock c).1 = 0 →
        j = th.high_priority_messages.length ∧ k = th.rest_messages.length) := by
  obtain ⟨j, hj, hs1, hl1, hz1⟩ :=
    sendLane_spec Msg.high clock th.high_priority_messages c th.sw th.sent
  by_cases h0 : (sendLane Msg.high clock c th.sw th.sent th.high_priority_messages).delay = 0
  · obtain ⟨k, hk, hs2, hl2, hz2⟩ := sendLane_spec id clock th.rest_messages
      (sendLane Msg.high clock c th.sw th.sent th.high_priority_messages).cursor
      (sendLane Msg.high clock c th.sw th.sent th.high_priority_messages).sw
      (sendLane Msg.high clock c th.sw th.sent th.high_priority_messages).sent
    refine ⟨j, k, hj, hk, ?_, ?_, ?_, fun _ => hz1 h0, ?_⟩
    · rw [send_queued_of_high_zero clock th c h0]
      exact hl1
    · rw [send_queued_of_high_zero clock th c h0]
      exact hl2
    · rw [send_queued_of_high_zero clock th c h0, hs2, hs1, List.map_id]
    · rw [send_queued_of_high_zero clock th c h0]
      intro hz
      exact ⟨hz1 h0, hz2 hz⟩
  · refine ⟨j, 0, hj, by omega, ?_, ?_, ?_, by omega, ?_⟩
    · rw [send_queued_of_high_delay clock th c h0]
      exact hl1
    · rw [send_queued_of_high_delay clock th c h0, List.drop_zero]
    · rw [send_queued_of_high_delay clock th c h0, hs1, List.take_zero, List.append_nil]
    · rw [send_queued_of_high_delay clock th c h0]
      intro hz
      exact absurd hz h0

/-- Claim C4: priority and FIFO ordering of the drain path.  In every
`send_queued_messages` call a prefix of the high-priority lane is notified
first, front-to-back, then — only if the high lane was drained completely —
a prefix of the secondary lane, front-to-back; if the high-priority pass
stops with a nonzero delay, that delay is returned at once and the
secondary lane is not consulted at all; and a denied submission appends the
message at the BACK of its lane, so lane order is submission order. -/
theorem throttler_priority_fifo_ordering (clock : Nat → Int) :
    (∀ (th : Throttler) (c : Nat),
      ∃ j k, j ≤ th.high_priority_messages.length ∧ k ≤ th.rest_messages.length ∧
        (th.send_queued_messages clock c).2.1.high_priority_messages =
          th.high_priority_messages.drop j ∧
        (th.send_queued_messages clock c).2.1.rest_messages = th.rest_messages.drop k ∧
        (th.send_queued_messages clock c).2.1.sent =
          th.sent ++ (th.high_priority_messages.take j).map Msg.high ++
            th.rest_messages.take k ∧
        (0 < k → j = th.high_priority_messages.length)) ∧
    (∀ (th : Throttler) (c : Nat),
      (sendLane Msg.high clock c th.sw th.sent th.high_priority_messages).delay ≠ 0 →
      th.send_queued_messages clock c =
        ((sendLane Msg.high clock c th.sw th.sent th.high_priority_messages).delay,
         ⟨(sendLane Msg.high clock c th.sw th.sent th.high_priority_messages).sw,
          (sendLane Msg.high clock c th.sw th.sent th.high_priority_messages).lane,
          th.rest_messages,
          (sendLane Msg.high clock c th.sw th.sent th.high_priority_messages).sent⟩,
         (sendLane Msg.high clock c th.sw th.sent th.high_priority_messages).cursor)) ∧
    (∀ (th : Throttler) (c : Nat) (p : Nat),
      (th.try_send_message clock c (Msg.high p)).1 ≠ 0 →
      (th.try_send_message clock c (Msg.high p)).2.1.high_priority_messages =
        th.high_priority_messages ++ [p] ∧
      (th.try_send_message clock c (Msg.high p)).2.1.rest_messages = th.rest_messages) ∧
    (∀ (th : Throttler) (c : Nat) (m : Msg), m.isHigh = false →
      (th.try_send_message clock c m).1 ≠ 0 →
      (th.try_send_message clock c m).2.1.rest_messages = th.rest_messages ++ [m] ∧
      (th.try_send_message clock c m).2.1.high_priority_messages =
        th.high_priority_messages) := by
  refine ⟨?_, ?_, ?_, ?_⟩
  · intro th c
    obtain ⟨j, k, hj, hk, hh, hr, hs, hjk, _⟩ := Throttler.send_queued_spec clock th c
    exact ⟨j, k, hj, hk, hh, hr, hs, hjk⟩
  · intro th c h
    exact send_queued_of_high_delay clock th c h
  · intro th c p h
    by_cases h0 : (th.sw.request (clock c)).1 = 0
    · exfalso
      apply h
      simp only [Throttler.try_send_message]
      rw [if_pos h0]
    · simp only [Throttler.try_send_message]
      rw [if_neg h0]
      exact ⟨rfl, rfl⟩
  · intro th c m hm h
    cases m with
    | high p => exact absurd hm (by simp [Msg.isHigh])
    | lowA p =>
      by_cases h0 : (th.sw.request (clock c)).1 = 0
      · exfalso
        apply h
        simp only [Throttler.try_send_message]
        rw [if_pos h0]
      · simp only [Throttler.try_send_message]
        rw [if_neg h0]
        exact ⟨rfl, rfl⟩
    | lowB p =>
      by_cases h0 : (th.sw.request (clock c)).1 = 0
      · exfalso
        apply h
        simp only [Throttler.try_send_message]
        rw [if_pos h0]
      · simp only [Throttler.try_send_message]
        rw [if_neg h0]
        exact ⟨rfl, rfl⟩

/-- Witness for C4: a throttler with a full capacity-1 window (admitted at
time 0, queried at time 1 so each request denies), one queued high payload
4 and one queued secondary message lowA 7: a drain call leaves the
secondary lane untouched, a denied high submission is appended at the back
of the high lane, and a denied secondary submission is appended at the back
of the secondary lane. -/
theorem throttler_priority_fifo_ordering_witness :
    ((⟨((SlidingWindow.init 1 5).request 0).2, [4], [Msg.lowA 7], []⟩ :
        Throttler).send_queued_messages (fun _ => 1) 0).2.1.rest_messages = [Msg.lowA 7] ∧
    ((⟨((SlidingWindow.init 1 5).request 0).2, [4], [Msg.lowA 7], []⟩ :
        Throttler).try_send_message (fun _ => 1) 0 (Msg.high 9)).2.1.high_priority_messages =
      [4, 9] ∧
    ((⟨((SlidingWindow.init 1 5).request 0).2, [4], [Msg.lowA 7], []⟩ :
        Throttler).try_send_message (fun _ => 1) 0 (Msg.lowB 8)).2.1.rest_messages =
      [Msg.lowA 7, Msg.lowB 8] := by
  refine ⟨?_, ?_, ?_⟩
  · have h := (throttler_priority_fifo_ordering (fun _ => 1)).2.1
      ⟨((SlidingWindow.init 1 5).request 0).2, [4], [Msg.lowA 7], []⟩ 0 (by decide)
    rw [h]
  · have h := ((throttler_priority_fifo_ordering (fun _ => 1)).2.2.1
      ⟨((SlidingWindow.init 1 5).request 0).2, [4], [Msg.lowA 7], []⟩ 0 9 (by decide)).1
    rw [h]
    rfl
  · have h := ((throttler_priority_fifo_ordering (fun _ => 1)).2.2.2
      ⟨((SlidingWindow.init 1 5).request 0).2, [4], [Msg.lowA 7], []⟩ 0 (Msg.lowB 8)
      (by decide) (by decide)).1
    rw [h]
    rfl

/-- A submission adds exactly one copy of the submitted message to the
throttler's accounting: either to the sink trace (admitted) or to the
matching lane (denied). -/
theorem try_send_count (clock : Nat → Int) (c : Nat) (th : Throttler) (m sub : Msg) :
    laneCount (th.try_send_message clock c sub).2.1 m =
      laneCount th m + (if sub = m then 1 else 0) := by
  simp only [Throttler.try_send_message, laneCount]
  by_cases h0 : (th.sw.request (clock c)).1 = 0
  · rw [if_pos h0]
    simp only [List.count_append, List.count_singleton, beq_iff_eq]
    by_cases he : sub = m <;> simp [he] <;> omega
  · rw [if_neg h0]
    cases sub with
    | high p =>
      simp only [List.map_append, List.map_cons, List.map_nil, List.count_append,
        List.count_singleton, beq_iff_eq]
      by_cases he : Msg.high p = m <;> simp [he] <;> omega
    | lowA p =>
      simp only [List.count_append, List.count_singleton, beq_iff_eq]
      by_cases he : Msg.lowA p = m <;> simp [he] <;> omega
    | lowB p =>
      simp only [List.count_append, List.count_singleton, beq_iff_eq]
      by_cases he : Msg.lowB p = m <;> simp [he] <;> omega

/-- A drain call moves messages between the lanes and the sink trace
without creating or losing any. -/
theorem send_queued_count (clock : Nat → Int) (c : Nat) (th : Throttler) (m : Msg) :
    laneCount (th.send_queued_messages clock c).2.1 m = laneCount th m := by
  obtain ⟨j, k, _, _, hh, hr, hs, _, _⟩ := Throttler.send_queued_spec clock th c
  simp only [laneCount, hh, hr, hs]
  rw [List.count_append, List.count_append]
  have hmap : (th.high_priority_messages.map Msg.high).count m =
      ((th.high_priority_messages.take j).map Msg.high).count m +
      ((th.high_priority_messages.drop j).map Msg.high).count m := by
    rw [← List.count_append, ← List.map_append, List.take_append_drop]
  have hrests : th.rest_messages.count m =
      (th.rest_messages.take k).count m + (th.rest_messages.drop k).count m := by
    rw [← List.count_append, List.take_append_drop]
  omega

/-- Unfolding of `runOps` over a submission. -/
theorem runOps_submit (clock : Nat → Int) (c : Nat) (th : Throttler) (m : Msg)
    (ops : List Op) :
    runOps clock c th (Op.submit m :: ops) =
      runOps clock (th.try_send_message clock c m).2.2 (th.try_send_message clock c m).2.1
        ops := rfl

/-- Unfolding of `runOps` over a drain. -/
theorem runOps_drain (clock : Nat → Int) (c : Nat) (th : Throttler) (ops : List Op) :
    runOps clock c th (Op.drain :: ops) =
      runOps clock (th.send_queued_messages clock c).2.2
        (th.send_queued_messages clock c).2.1 ops := rfl

/-- Conservation over any operation sequence: every message is accounted
for exactly as many times as it was submitted — in the sink trace or in
one of the two lanes, never both and never lost. -/
theorem runOps_count (clock : Nat → Int) :
    ∀ (ops : List Op) (c : Nat) (th : Throttler) (m : Msg),
      laneCount (runOps clock c th ops).1 m = laneCount th m + (submittedOf ops).count m := by
  intro ops
  induction ops with
  | nil => intro c th m; simp [runOps, submittedOf]
  | cons op ops ih =>
    intro c th m
    cases op with
    | submit sub =>
      rw [runOps_submit, ih, try_send_count]
      simp only [submittedOf, List.count_cons, beq_iff_eq]
      by_cases he : sub = m <;> simp [he] <;> omega
    | drain =>
      rw [runOps_drain, ih, send_queued_count]
      simp only [submittedOf]

/-- A submission only ever appends to the sink trace. -/
theorem try_send_sent_extend (clock : Nat → Int) (c : Nat) (th : Throttler) (m : Msg) :
    ∃ ext, (th.try_send_message clock c m).2.1.sent = th.sent ++ ext := by
  simp only [Throttler.try_send_message]
  by_cases h0 : (th.sw.request (clock c)).1 = 0
  · rw [if_pos h0]
    exact ⟨[m], rfl⟩
  · rw [if_neg h0]
    cases m with
    | high p => exact ⟨[], (List.append_nil _).symm⟩
    | lowA p => exact ⟨[], (List.append_nil _).symm⟩
    | lowB p => exact ⟨[], (List.append_nil _).symm⟩

/-- A drain only ever appends to the sink trace. -/
theorem send_queued_sent_extend (clock : Nat → Int) (c : Nat) (th : Throttler) :
    ∃ ext, (th.send_queued_messages clock c).2.1.sent = th.sent ++ ext := by
  obtain ⟨j, k, _, _, _, _, hs, _, _⟩ := Throttler.send_queued_spec clock th c
  exact ⟨_, by rw [hs, List.append_assoc]⟩

/-- Over any operation sequence the sink trace only grows: a message once
handed to the sink stays recorded (no transition out of Dispatched or
Drained). -/
theorem runOps_sent_extend (clock : Nat → Int) :
    ∀ (ops : List Op) (c : Nat) (th : Throttler),
      ∃ ext, (runOps clock c th ops).1.sent = th.sent ++ ext := by
  intro ops
  induction ops with
  | nil => intro c th; exact ⟨[], (List.append_nil _).symm⟩
  | cons op ops ih =>
    intro c th
    cases op with
    | submit sub =>
      obtain ⟨e1, he1⟩ := try_send_sent_extend clock c th sub
      obtain ⟨e2, he2⟩ := ih (th.try_send_message clock c sub).2.2
        (th.try_send_message clock c sub).2.1
      exact ⟨e1 ++ e2, by rw [runOps_submit, he2, he1, List.append_assoc]⟩
    | drain =>
      obtain ⟨e1, he1⟩ := send_queued_sent_extend clock c th
      obtain ⟨e2, he2⟩ := ih (th.send_queued_messages clock c).2.2
        (th.send_queued_messages clock c).2.1
      exact ⟨e1 ++ e2, by rw [runOps_drain, he2, he1, List.append_assoc]⟩

/-- Running a concatenation of operation sequences runs them in turn. -/
theorem runOps_append (clock : Nat → Int) :
    ∀ (ops1 ops2 : List Op) (c : Nat) (th : Throttler),
      runOps clock c th (ops1 ++ ops2) =
        runOps clock (runOps clock c th ops1).2 (runOps clock c th ops1).1 ops2 := by
  intro ops1
  induction ops1 with
  | nil => intro ops2 c th; rfl
  | cons op ops ih =>
    intro ops2 c th
    cases op with
    | submit sub => rw [List.cons_append, runOps_submit, runOps_submit, ih]
    | drain => rw [List.cons_append, runOps_drain, runOps_drain, ih]

/-- Claim C3: exactly-once delivery.  After any operation sequence, each
message is accounted for exactly as many times as it was submitted, split
between the sink trace and the two lanes (never duplicated, never lost);
the sink trace only ever grows (no message leaves the Dispatched or
Drained state); and a drain returning zero leaves both lanes empty — so
once drains are repeated until zero every submitted message has been
handed to the sink exactly once. -/
theorem throttler_exactly_once_delivery (clock : Nat → Int) (n : Nat) (i : Int) :
    (∀ (ops : List Op) (m : Msg),
      laneCount (runOps clock 0 (Throttler.init n i) ops).1 m =
        (submittedOf ops).count m) ∧
    (∀ ops more : List Op, ∃ ext,
      (runOps clock 0 (Throttler.init n i) (ops ++ more)).1.sent =
        (runOps clock 0 (Throttler.init n i) ops).1.sent ++ ext) ∧
    (∀ (th : Throttler) (c : Nat), (th.send_queued_messages clock c).1 = 0 →
      (th.send_queued_messages clock c).2.1.high_priority_messages = [] ∧
      (th.send_queued_messages clock c).2.1.rest_messages = []) := by
  refine ⟨?_, ?_, ?_⟩
  · intro ops m
    rw [runOps_count]
    have hz : laneCount (Throttler.init n i) m = 0 := rfl
    rw [hz, Nat.zero_add]
  · intro ops more
    rw [runOps_append]
    exact runOps_sent_extend clock more _ _
  · intro th c hz
    obtain ⟨j, k, _, _, hh, hr, _, _, hzz⟩ := Throttler.send_queued_spec clock th c
    obtain ⟨hjl, hkl⟩ := hzz hz
    constructor
    · rw [hh, hjl, List.drop_length]
    · rw [hr, hkl, List.drop_length]

/-- Witness for C3: submitting lowA 3 and draining accounts for it exactly
once, and draining a fresh throttler returns zero with empty lanes. -/
theorem throttler_exactly_once_delivery_witness :
    laneCount (runOps (fun _ => 0) 0 (Throttler.init 1 1)
        [Op.submit (Msg.lowA 3), Op.drain]).1 (Msg.lowA 3) =
      (submittedOf [Op.submit (Msg.lowA 3), Op.drain]).count (Msg.lowA 3) ∧
    ((Throttler.init 1 1).send_queued_messages (fun _ => 0) 0).2.1.high_priority_messages
      = [] :=
  ⟨(throttler_exactly_once_delivery (fun _ => 0) 1 1).1
      [Op.submit (Msg.lowA 3), Op.drain] (Msg.lowA 3),
   ((throttler_exactly_once_delivery (fun _ => 0) 1 1).2.2 (Throttler.init 1 1) 0
      (by decide)).1⟩

/-- Witness for C10 at capacity 1 and insertions 2, 3. -/
theorem ring_accesses_in_bounds_witness :
    (CircularBufferMod.init Int 1).insertAllChk [2, 3] =
      some ((CircularBufferMod.init Int 1).insertAll [2, 3]) ∧
    ((CircularBufferMod.init Int 1).insertAll [2, 3]).backChk =
      some ((CircularBufferMod.init Int 1).insertAll [2, 3]).back ∧
    (CircularBuffer.init Int 1).insertAllChk [2, 3] =
      some ((CircularBuffer.init Int 1).insertAll [2, 3]) ∧
    ((CircularBuffer.init Int 1).insertAll [2, 3]).backChk =
      some ((CircularBuffer.init Int 1).insertAll [2, 3]).back :=
  (ring_accesses_in_bounds Int).1 1 [2, 3] (by decide)

end ets
